import Mathlib

/-!
Shallow embedding of the f1-hub repository's core logic:

* `syncF1Data` (functions/index.js) — the scheduled sync job: three provider
  fetches run in parallel (`Promise.all`), the payloads are normalised and
  staged into a single Firestore batch, and the batch is committed once.
* `askF1Expert` (functions/index.js) — the HTTP chat proxy: CORS/method
  handling, bearer-token verification, model call, fact-marker extraction and
  grounding-source post-processing.
* client read/write helpers from src/firebase/firestore.js
  (`getRaceResult`, `addPrediction`, `getUserPredictionForRace`).

Provider payloads are modelled structurally, with `Option` wherever the source
uses optional chaining (`?.`) or nullable JSON fields.  The document store is a
map from `(collection, docId)` paths to document values; a batched write is a
list of staged `set` operations applied in one commit.
-/

namespace F1Hub

/-- Hardcoded season constant `const SEASON = 2026` from functions/index.js. -/
def SEASON : Nat := 2026

/-- Model of JavaScript `Number(s)` as used on the provider's integer-formatted
numeric strings (`position`, `grid`, `laps`, `points`, `round`, `season`,
`wins`); `none` plays the role of `NaN` for non-numeric input. -/
def jsNumber (s : String) : Option Int := s.toInt?

/-- Model of JS `String.prototype.padStart(n, c)`. -/
def padStart (n : Nat) (c : Char) (s : String) : String :=
  if n ≤ s.length then s else String.mk (List.replicate (n - s.length) c) ++ s

/-! ### Provider payload shapes (Jolpica / Ergast JSON) -/

structure DriverObj where
  code : String
  givenName : String
  familyName : String
  nationality : String
deriving DecidableEq

structure ConstructorObj where
  name : String
  nationality : String
deriving DecidableEq

structure TimeObj where
  time : String
deriving DecidableEq

structure FastestLapObj where
  Time : Option TimeObj
deriving DecidableEq

structure ResultRowObj where
  position : String
  grid : String
  laps : String
  points : String
  status : String
  Driver : DriverObj
  Constructor : ConstructorObj
  Time : Option TimeObj
  FastestLap : Option FastestLapObj
deriving DecidableEq

structure CircuitObj where
  circuitName : String
deriving DecidableEq

structure RaceObj where
  season : String
  round : String
  raceName : String
  date : String
  Circuit : CircuitObj
  Results : Option (List ResultRowObj)
deriving DecidableEq

structure RaceTableObj where
  Races : Option (List RaceObj)
deriving DecidableEq

structure ResultsMRDataObj where
  RaceTable : Option RaceTableObj
deriving DecidableEq

/-- Payload of the `/last/results/` fetch. -/
structure ResultsData where
  MRData : Option ResultsMRDataObj
deriving DecidableEq

/-- The chain `resultsData?.MRData?.RaceTable?.Races ?? []`. -/
def racesOf (rd : ResultsData) : List RaceObj :=
  ((rd.MRData.bind (·.RaceTable)).bind (·.Races)).getD []

structure DriverStandingRowObj where
  position : String
  points : String
  wins : String
  Driver : DriverObj
  Constructors : List ConstructorObj
deriving DecidableEq

structure DriverStandingsListObj where
  season : String
  round : String
  DriverStandings : Option (List DriverStandingRowObj)
deriving DecidableEq

structure DriverStandingsTableObj where
  StandingsLists : Option (List DriverStandingsListObj)
deriving DecidableEq

structure DriverMRDataObj where
  StandingsTable : Option DriverStandingsTableObj
deriving DecidableEq

/-- Payload of the `/driverStandings/` fetch. -/
structure DriverData where
  MRData : Option DriverMRDataObj
deriving DecidableEq

/-- The chain `driverData?.MRData?.StandingsTable?.StandingsLists ?? []`. -/
def driverListsOf (dd : DriverData) : List DriverStandingsListObj :=
  ((dd.MRData.bind (·.StandingsTable)).bind (·.StandingsLists)).getD []

structure ConstructorStandingRowObj where
  position : String
  points : String
  wins : String
  Constructor : ConstructorObj
deriving DecidableEq

structure ConstructorStandingsListObj where
  season : String
  round : String
  ConstructorStandings : Option (List ConstructorStandingRowObj)
deriving DecidableEq

structure ConstructorStandingsTableObj where
  StandingsLists : Option (List ConstructorStandingsListObj)
deriving DecidableEq

structure ConstructorMRDataObj where
  StandingsTable : Option ConstructorStandingsTableObj
deriving DecidableEq

/-- Payload of the `/constructorStandings/` fetch. -/
structure ConstructorData where
  MRData : Option ConstructorMRDataObj
deriving DecidableEq

/-- The chain `constructorData?.MRData?.StandingsTable?.StandingsLists ?? []`. -/
def constructorListsOf (cd : ConstructorData) : List ConstructorStandingsListObj :=
  ((cd.MRData.bind (·.StandingsTable)).bind (·.StandingsLists)).getD []

/-! ### Normalised Firestore documents written by the sync job -/

/-- Sentinel for `FieldValue.serverTimestamp()`. -/
inductive ServerTimestamp where
  | serverTimestamp
deriving DecidableEq

structure ResultRecord where
  position : Option Int
  driverCode : String
  driverName : String
  constructor : String
  grid : Option Int
  laps : Option Int
  status : String
  points : Option Int
  time : Option String
  fastestLap : Option String
deriving DecidableEq

structure ResultDoc where
  season : Option Int
  round : Option Int
  raceName : String
  date : String
  circuit : String
  results : List ResultRecord
  updatedAt : ServerTimestamp
deriving DecidableEq

structure DriverStandingEntry where
  position : Option Int
  driverCode : String
  driverName : String
  nationality : String
  constructor : String
  points : Option Int
  wins : Option Int
deriving DecidableEq

structure DriverStandingsDoc where
  season : Option Int
  round : Option Int
  standings : List DriverStandingEntry
  updatedAt : ServerTimestamp
deriving DecidableEq

structure ConstructorStandingEntry where
  position : Option Int
  name : String
  nationality : String
  points : Option Int
  wins : Option Int
deriving DecidableEq

structure ConstructorStandingsDoc where
  season : Option Int
  round : Option Int
  standings : List ConstructorStandingEntry
  updatedAt : ServerTimestamp
deriving DecidableEq

inductive DocData where
  | resultDoc (d : ResultDoc)
  | driverStandingsDoc (d : DriverStandingsDoc)
  | constructorStandingsDoc (d : ConstructorStandingsDoc)
deriving DecidableEq

/-- A document path `(collection, docId)`. -/
abbrev DocPath := String × String

structure Write where
  path : DocPath
  data : DocData
deriving DecidableEq

/-- The document store, as a map from paths to document data. -/
def Store := DocPath → Option DocData

def getDoc (st : Store) (p : DocPath) : Option DocData := st p

/-- Firestore `set` without merge options: full replacement of the document. -/
def setDoc (st : Store) (p : DocPath) (d : DocData) : Store :=
  fun q => if q = p then some d else st q

/-- Applying all staged writes of a batch, in staging order. -/
def applyWrites (st : Store) (ws : List Write) : Store :=
  ws.foldl (fun s w => setDoc s w.path w.data) st

/-! ### The staged writes of one sync cycle -/

/-- The race-results section of `syncF1Data`: if the race list is non-empty,
stage one `set` on `results/{SEASON}_{round padded to 2}` with all numeric
fields coerced through `Number`; otherwise stage nothing. -/
def resultWrites (rd : ResultsData) : List Write :=
  match racesOf rd with
  | [] => []
  | race :: _ =>
    let docId := toString SEASON ++ "_" ++ padStart 2 '0' race.round
    let results := (race.Results.getD []).map fun r =>
      { position := jsNumber r.position
        driverCode := r.Driver.code
        driverName := r.Driver.givenName ++ " " ++ r.Driver.familyName
        constructor := r.Constructor.name
        grid := jsNumber r.grid
        laps := jsNumber r.laps
        status := r.status
        points := jsNumber r.points
        time := r.Time.map (·.time)
        fastestLap := (r.FastestLap.bind (·.Time)).map (·.time) : ResultRecord }
    [⟨("results", docId),
      .resultDoc
        { season := jsNumber race.season
          round := jsNumber race.round
          raceName := race.raceName
          date := race.date
          circuit := race.Circuit.circuitName
          results := results
          updatedAt := .serverTimestamp }⟩]

/-- The driver-standings section of `syncF1Data`: if the standings list is
non-empty, stage one `set` on `standings/drivers` built from its head. -/
def driverWrites (dd : DriverData) : List Write :=
  match driverListsOf dd with
  | [] => []
  | list :: _ =>
    let standings := (list.DriverStandings.getD []).map fun s =>
      { position := jsNumber s.position
        driverCode := s.Driver.code
        driverName := s.Driver.givenName ++ " " ++ s.Driver.familyName
        nationality := s.Driver.nationality
        constructor := ((s.Constructors.head?).map (·.name)).getD "—"
        points := jsNumber s.points
        wins := jsNumber s.wins : DriverStandingEntry }
    [⟨("standings", "drivers"),
      .driverStandingsDoc
        { season := jsNumber list.season
          round := jsNumber list.round
          standings := standings
          updatedAt := .serverTimestamp }⟩]

/-- The constructor-standings section of `syncF1Data`: if the standings list is
non-empty, stage one `set` on `standings/constructors` built from its head. -/
def constructorWrites (cd : ConstructorData) : List Write :=
  match constructorListsOf cd with
  | [] => []
  | list :: _ =>
    let standings := (list.ConstructorStandings.getD []).map fun s =>
      { position := jsNumber s.position
        name := s.Constructor.name
        nationality := s.Constructor.nationality
        points := jsNumber s.points
        wins := jsNumber s.wins : ConstructorStandingEntry }
    [⟨("standings", "constructors"),
      .constructorStandingsDoc
        { season := jsNumber list.season
          round := jsNumber list.round
          standings := standings
          updatedAt := .serverTimestamp }⟩]

/-- All writes staged into the single batch of one cycle, in source order. -/
def stagedWrites (rd : ResultsData) (dd : DriverData) (cd : ConstructorData) :
    List Write :=
  resultWrites rd ++ driverWrites dd ++ constructorWrites cd

structure SyncResult where
  outcome : Except String Unit
  store : Store

/-- One invocation of `syncF1Data`.  The three fetch outcomes are inputs
(`Except`: a timeout / non-2xx / network error versus a parsed payload); when
any of the three rejects, `Promise.all` rejects and the `catch` block rethrows,
so the invocation fails with no batch ever built.  Otherwise the batch is
staged and committed once; `commitOk` models whether the store accepts the
atomic commit. -/
def syncF1Data (rf : Except String ResultsData) (df : Except String DriverData)
    (cf : Except String ConstructorData) (commitOk : Bool) (store : Store) :
    SyncResult :=
  match rf, df, cf with
  | .ok rd, .ok dd, .ok cd =>
    let batch := stagedWrites rd dd cd
    if commitOk then ⟨.ok (), applyWrites store batch⟩
    else ⟨.error "commit rejected", store⟩
  | .error e, _, _ => ⟨.error e, store⟩
  | .ok _, .error e, _ => ⟨.error e, store⟩
  | .ok _, .ok _, .error e => ⟨.error e, store⟩

/-! ### Client-side Firestore helpers (src/firebase/firestore.js) -/

/-- The document id computed by `getRaceResult(season, round)`:
`${season}_${String(round).padStart(2, '0')}`. -/
def getRaceResultDocId (season round : Nat) : String :=
  toString season ++ "_" ++ padStart 2 '0' (toString round)

structure Prediction where
  id : String
  userId : String
  displayName : String
  raceId : String
  raceName : String
  predictedWinner : String
  createdAt : Nat
deriving DecidableEq

/-- `addPrediction`: `addDoc` always inserts a fresh document (`newId` models
the generated id, `now` the server timestamp); no uniqueness check is made.
The list models the `predictions` collection in its query order. -/
def addPrediction (store : List Prediction) (newId : String)
    (userId displayName raceId raceName predictedWinner : String) (now : Nat) :
    List Prediction :=
  store ++ [⟨newId, userId, displayName, raceId, raceName, predictedWinner, now⟩]

/-- `getUserPredictionForRace`: filter on `userId` and `raceId` equality and
return the first document of the snapshot, or `null` when empty. -/
def getUserPredictionForRace (store : List Prediction)
    (userId raceId : String) : Option Prediction :=
  (store.filter (fun p => p.userId == userId && p.raceId == raceId)).head?

/-! ### The fact-marker regex of `askF1Expert`

The source matches `replyText` against

  `/(```json\n?([\s\S]*?)\n?```\s*$|\x7b"newFacts":\s*\[[\s\S]*?\]\x7d\s*$)/`

Both alternatives end in `\s*$` (no `m` flag), so a successful match starting
at position `i` always extends to the very end of the string: the matched text
is the whole suffix at `i`.  The engine returns the leftmost matching
position, trying the fenced alternative before the raw one; group 2 (the fence
body) is produced only by the fenced alternative.  The functions below are the
denotation of that search on `List Char`. -/

/-- The code points of the JS `\s` class that this development ever meets
(ASCII whitespace plus NBSP and the BOM). -/
def isWsChar (c : Char) : Bool :=
  c.toNat == 32 || c.toNat == 9 || c.toNat == 10 || c.toNat == 11 ||
  c.toNat == 12 || c.toNat == 13 || c.toNat == 160 || c.toNat == 65279

def allWs (l : List Char) : Bool := l.all isWsChar

def stripLit (lit l : List Char) : Option (List Char) :=
  if lit.isPrefixOf l then some (l.drop lit.length) else none

def fenceOpen : List Char := "```json".toList

def fenceClose : List Char := "```".toList

def factsOpen : List Char := "\x7b\"newFacts\":".toList

/-- Does `\n?```\s*$` match the whole of `rem`? -/
def closeA (rem : List Char) : Bool :=
  (fenceClose.isPrefixOf rem && allWs (rem.drop 3)) ||
    (match rem with
     | '\n' :: r => fenceClose.isPrefixOf r && allWs (r.drop 3)
     | _ => false)

/-- The lazy group `([\s\S]*?)` before `\n?```\s*$`: the shortest prefix of
`l` whose remainder is closed by `closeA`. -/
def findBody (l : List Char) : Option (List Char) :=
  if closeA l then some []
  else
    match l with
    | [] => none
    | c :: t => (findBody t).map (fun b => c :: b)

/-- The fenced alternative at the start of `s`; returns group 2 on success.
When the character after the literal is `'\n'`, the greedy `\n?` consumes it
first, and a success of the non-consuming branch always implies a success of
the consuming branch with a one-shorter body, so only the consuming branch
needs to be searched. -/
def matchA (s : List Char) : Option (List Char) :=
  match stripLit fenceOpen s with
  | none => none
  | some rest =>
    match rest with
    | '\n' :: t => findBody t
    | _ => findBody rest

/-- Does `]\x7d\s*$` match the whole of `l`? -/
def closeB (l : List Char) : Bool :=
  ("]\x7d".toList.isPrefixOf l) && allWs (l.drop 2)

/-- Existence of a split of `l` into a lazy body followed by `]\x7d\s*$`. -/
def existsCloseB (l : List Char) : Bool :=
  if closeB l then true
  else
    match l with
    | [] => false
    | _ :: t => existsCloseB t

/-- The raw alternative at the start of `s` (no group of its own).  After the
literal, the greedy `\s*` must end exactly at a `'['`, so the first
non-whitespace character must be `'['`. -/
def matchB (s : List Char) : Bool :=
  match stripLit factsOpen s with
  | none => false
  | some rest =>
    match rest.dropWhile isWsChar with
    | '[' :: r => existsCloseB r
    | _ => false

/-- Leftmost match of the fact-marker regex: the first suffix matched by the
fenced alternative (with its group 2) or the raw alternative (no group).
Neither alternative can match the empty suffix, both starting with a literal. -/
def jsMatch : List Char → Option (List Char × Option (List Char))
  | [] => none
  | c :: t =>
    match matchA (c :: t) with
    | some g2 => some (c :: t, some g2)
    | none =>
      if matchB (c :: t) then some (c :: t, none)
      else jsMatch t

/-! ### A model of `JSON.parse` -/

inductive Json where
  | null
  | bool (b : Bool)
  | num (q : Rat)
  | str (s : String)
  | arr (elems : List Json)
  | obj (members : List (String × Json))

/-- JSON insignificant whitespace (RFC 8259). -/
def jsonWsChar (c : Char) : Bool :=
  c == ' ' || c == '\t' || c == '\n' || c == '\r'

def skipJsonWs (l : List Char) : List Char := l.dropWhile jsonWsChar

def hexDigitVal (c : Char) : Option Nat :=
  if 48 ≤ c.toNat && c.toNat ≤ 57 then some (c.toNat - 48)
  else if 97 ≤ c.toNat && c.toNat ≤ 102 then some (c.toNat - 87)
  else if 65 ≤ c.toNat && c.toNat ≤ 70 then some (c.toNat - 55)
  else none

def escChar (e : Char) : Option Char :=
  if e == '"' then some '"'
  else if e == '\\' then some '\\'
  else if e == '/' then some '/'
  else if e == 'b' then some (Char.ofNat 8)
  else if e == 'f' then some (Char.ofNat 12)
  else if e == 'n' then some '\n'
  else if e == 'r' then some '\r'
  else if e == 't' then some '\t'
  else none

/-- Body of a JSON string after the opening quote: content and the remainder
after the closing quote.  Raw control characters are rejected; `\uXXXX` and
the single-character escapes are decoded. -/
def strBody : List Char → Option (List Char × List Char)
  | [] => none
  | c :: rest =>
    if c = '"' then some ([], rest)
    else if c = '\\' then
      match rest with
      | 'u' :: h1 :: h2 :: h3 :: h4 :: rest2 => do
        let a ← hexDigitVal h1
        let b ← hexDigitVal h2
        let c2 ← hexDigitVal h3
        let d ← hexDigitVal h4
        let (s, r) ← strBody rest2
        pure (Char.ofNat (((a * 16 + b) * 16 + c2) * 16 + d) :: s, r)
      | e :: rest2 => do
        let c2 ← escChar e
        let (s, r) ← strBody rest2
        pure (c2 :: s, r)
      | [] => none
    else if c.toNat < 32 then none
    else do
      let (s, r) ← strBody rest
      pure (c :: s, r)

def digitsToNat (ds : List Char) : Nat :=
  ds.foldl (fun a c => a * 10 + (c.toNat - 48)) 0

def parseExp (m : Rat) (r : List Char) : Option (Rat × List Char) :=
  let (en, r1) := match r with
    | '+' :: t => (false, t)
    | '-' :: t => (true, t)
    | _ => (false, r)
  let es := r1.takeWhile Char.isDigit
  if es = [] then none
  else
    some (if en then m / ((10 : Rat) ^ digitsToNat es)
          else m * ((10 : Rat) ^ digitsToNat es),
          r1.dropWhile Char.isDigit)

/-- A JSON number: optional minus, integer part without leading zeros,
optional fraction, optional exponent. -/
def parseNumber (l : List Char) : Option (Rat × List Char) :=
  let (neg, l1) := match l with
    | '-' :: r => (true, r)
    | _ => (false, l)
  match l1 with
  | [] => none
  | c :: _ =>
    if ¬ c.isDigit then none
    else
      let ds := l1.takeWhile Char.isDigit
      let l2 := l1.dropWhile Char.isDigit
      if 1 < ds.length ∧ ds.head? = some '0' then none
      else
        let fr : Option (Rat × List Char) :=
          match l2 with
          | '.' :: r =>
            let fs := r.takeWhile Char.isDigit
            if fs = [] then none
            else some ((digitsToNat ds : Rat) +
                        (digitsToNat fs : Rat) / ((10 : Rat) ^ fs.length),
                       r.dropWhile Char.isDigit)
          | _ => some ((digitsToNat ds : Rat), l2)
        match fr with
        | none => none
        | some (m, l3) =>
          let ex : Option (Rat × List Char) :=
            match l3 with
            | 'e' :: r => parseExp m r
            | 'E' :: r => parseExp m r
            | _ => some (m, l3)
          match ex with
          | none => none
          | some (v, l4) => some (if neg then -v else v, l4)

mutual

/-- Fuelled recursive-descent JSON value parser.  The fuel passed at top level
(`2·length + 2`) dominates the recursion depth, since at least one character
is consumed between every two nested calls. -/
def parseValue : Nat → List Char → Option (Json × List Char)
  | 0, _ => none
  | fu + 1, l =>
    match skipJsonWs l with
    | [] => none
    | '"' :: rest =>
      match strBody rest with
      | none => none
      | some (cs, r) => some (.str (String.mk cs), r)
    | '\x7b' :: rest =>
      match skipJsonWs rest with
      | '\x7d' :: r2 => some (.obj [], r2)
      | r => (parseMembers fu r).map (fun m => (.obj m.1, m.2))
    | '[' :: rest =>
      match skipJsonWs rest with
      | ']' :: r2 => some (.arr [], r2)
      | r => (parseElems fu r).map (fun m => (.arr m.1, m.2))
    | 't' :: 'r' :: 'u' :: 'e' :: r => some (.bool true, r)
    | 'f' :: 'a' :: 'l' :: 's' :: 'e' :: r => some (.bool false, r)
    | 'n' :: 'u' :: 'l' :: 'l' :: r => some (.null, r)
    | l2 => (parseNumber l2).map (fun m => (.num m.1, m.2))

/-- Comma-separated array elements up to the closing `]`. -/
def parseElems : Nat → List Char → Option (List Json × List Char)
  | 0, _ => none
  | fu + 1, l =>
    match parseValue fu l with
    | none => none
    | some (v, r) =>
      match skipJsonWs r with
      | ',' :: r2 =>
        match parseElems fu r2 with
        | none => none
        | some (vs, r3) => some (v :: vs, r3)
      | ']' :: r2 => some ([v], r2)
      | _ => none

/-- Comma-separated object members up to the closing brace. -/
def parseMembers : Nat → List Char → Option (List (String × Json) × List Char)
  | 0, _ => none
  | fu + 1, l =>
    match skipJsonWs l with
    | '"' :: rest =>
      match strBody rest with
      | none => none
      | some (k, r1) =>
        match skipJsonWs r1 with
        | ':' :: r2 =>
          match parseValue fu r2 with
          | none => none
          | some (v, r3) =>
            match skipJsonWs r3 with
            | ',' :: r4 =>
              match parseMembers fu r4 with
              | none => none
              | some (ms, r5) => some ((String.mk k, v) :: ms, r5)
            | '\x7d' :: r4 => some ([(String.mk k, v)], r4)
            | _ => none
        | _ => none
    | _ => none

end

/-- `JSON.parse`: a single value with only whitespace around it. -/
def jsonParse (l : List Char) : Option Json :=
  match parseValue (2 * l.length + 2) l with
  | some (v, r) => if skipJsonWs r = [] then some v else none
  | none => none

/-- JS object property lookup; a later duplicate key wins, as in `JSON.parse`. -/
def objLookup (ms : List (String × Json)) (k : String) : Option Json :=
  ms.foldl (fun acc m => if m.1 == k then some m.2 else acc) none

/-- JS `String.prototype.replace` with a string pattern: remove the first
(leftmost) occurrence of `pat`, or return `s` unchanged if there is none. -/
def replaceFirst (pat : List Char) (s : List Char) : List Char :=
  if pat.isPrefixOf s then s.drop pat.length
  else
    match s with
    | [] => []
    | c :: t => c :: replaceFirst pat t

/-- JS `String.prototype.trim`. -/
def trimList (l : List Char) : List Char :=
  ((l.dropWhile isWsChar).reverse.dropWhile isWsChar).reverse

/-- Lines 363–380 of functions/index.js: run the regex; take group 2 when the
fenced alternative produced a non-empty body (`||` is falsy on the empty
string), else the full match; on a successful `JSON.parse`, read
`parsed.newFacts` when it is an array (an array is always truthy) and strip
the first occurrence of the matched text from the reply, trimming the result;
a parse failure is swallowed by the `catch` and leaves the reply untouched. -/
def extractNewFacts (replyText : String) : String × List Json :=
  let l := replyText.toList
  match jsMatch l with
  | none => (replyText, [])
  | some (m0, g2) =>
    let jsonContent := match g2 with
      | some b => if b.isEmpty then m0 else b
      | none => m0
    match jsonParse jsonContent with
    | none => (replyText, [])
    | some parsed =>
      let newFacts := match parsed with
        | .obj ms =>
          match objLookup ms "newFacts" with
          | some (.arr vs) => vs
          | _ => []
        | _ => []
      (String.mk (trimList (replaceFirst m0 l)), newFacts)

/-! ### The chat proxy `askF1Expert` -/

structure WebObj where
  uri : Option String
  title : Option String
deriving DecidableEq

structure ChunkObj where
  web : Option WebObj
deriving DecidableEq

structure PartObj where
  text : Option String
deriving DecidableEq

structure ContentObj where
  parts : List PartObj
deriving DecidableEq

structure GroundingMetadataObj where
  groundingChunks : Option (List ChunkObj)
deriving DecidableEq

structure CandidateObj where
  content : ContentObj
  groundingMetadata : Option GroundingMetadataObj
deriving DecidableEq

structure SourceEntry where
  url : String
  title : String
deriving DecidableEq

/-- `candidate.content.parts.map(p => p.text || '').join('')`. -/
def replyTextOf (cand : CandidateObj) : String :=
  String.join (cand.content.parts.map (fun p => p.text.getD ""))

/-- `candidate.groundingMetadata?.groundingChunks ?? []`. -/
def chunksOf (cand : CandidateObj) : List ChunkObj :=
  (cand.groundingMetadata.bind (·.groundingChunks)).getD []

/-- Truthiness of `c.web?.uri` (absent or empty string is falsy). -/
def chunkHasUri (c : ChunkObj) : Bool :=
  match c.web with
  | some w =>
    match w.uri with
    | some u => !(u == "")
    | none => false
  | none => false

/-- `c => (\x7b url: c.web.uri, title: c.web.title || c.web.uri \x7d)`, made
total with the same fallbacks JS truthiness gives. -/
def sourceOfChunk (c : ChunkObj) : SourceEntry :=
  let u := (c.web.bind (·.uri)).getD ""
  let t := match c.web.bind (·.title) with
    | some t => if t == "" then u else t
    | none => u
  ⟨u, t⟩

/-- The filtered and mapped source list before deduplication. -/
def mappedSources (cand : CandidateObj) : List SourceEntry :=
  ((chunksOf cand).filter chunkHasUri).map sourceOfChunk

/-- `.filter((s, i, arr) => arr.findIndex(x => x.url === s.url) === i)`:
keep an element exactly when its index is the first index of its URL. -/
def dedupByUrl (l : List SourceEntry) : List SourceEntry :=
  (l.enum.filter (fun p => l.findIdx (fun x => x.url == p.2.url) == p.1)).map
    Prod.snd

/-- The grounding sources returned to the client: filter truthy URIs, map,
deduplicate by URL, cap at 5. -/
def sourcesOf (cand : CandidateObj) : List SourceEntry :=
  (dedupByUrl (mappedSources cand)).take 5

structure ChatMessage where
  role : String
  text : String
deriving DecidableEq

/-- Request body; `messages` is `none` when the field is absent or is not an
array (the code checks `!messages || !Array.isArray(messages)`). -/
structure ChatBody where
  messages : Option (List ChatMessage)
deriving DecidableEq

structure ChatRequest where
  method : String
  origin : Option String
  authorization : Option String
  body : Option ChatBody
deriving DecidableEq

inductive RespBody where
  | empty
  | err (msg : String)
  | ok (reply : String) (sources : List SourceEntry) (newFacts : List Json)

structure ChatResult where
  status : Nat
  body : RespBody
  modelCalled : Bool

/-- Model of JS `String.prototype.startsWith` (and Lean `String.startsWith`),
phrased on character lists. -/
def strStartsWith (s p : String) : Bool := p.toList.isPrefixOf s.toList

/-- Model of `authHeader.slice(7)`: drop the first `n` characters. -/
def strDrop (s : String) (n : Nat) : String := String.mk (s.toList.drop n)

/-- The `askF1Expert` request handler.  CORS response headers are elided (they
carry no data the claims mention); `verify` models
`auth.verifyIdToken` and `modelResp` the outcome of `chat.sendMessage`
(`.error` = thrown upstream error, `.ok` = a response whose `candidates` array
may be missing or empty).  `modelCalled` records whether control ever reached
the model call. -/
def askF1Expert (req : ChatRequest) (verify : String → Except String String)
    (modelResp : Except String (Option (List CandidateObj))) : ChatResult :=
  if req.method == "OPTIONS" then ⟨204, .empty, false⟩
  else if req.method != "POST" then ⟨405, .err "Method not allowed", false⟩
  else
    let authHeader := req.authorization.getD ""
    if ¬ strStartsWith authHeader "Bearer " then
      ⟨401, .err "Missing or invalid Authorization header.", false⟩
    else
      match verify (strDrop authHeader 7) with
      | .error _ => ⟨401, .err "Unauthorized — invalid token.", false⟩
      | .ok _uid =>
        match req.body.bind (·.messages) with
        | none => ⟨400, .err "messages array is required.", false⟩
        | some [] => ⟨400, .err "messages array is required.", false⟩
        | some (_ :: _) =>
          match modelResp with
          | .error _ => ⟨500, .err "AI service error. Please try again.", true⟩
          | .ok cands =>
            match cands.bind List.head? with
            | none => ⟨500, .err "No response from AI. Please try again.", true⟩
            | some cand =>
              let er := extractNewFacts (replyTextOf cand)
              ⟨200, .ok er.1 (sourcesOf cand) er.2, true⟩

/-! ### The canonical well-formed fact-marker family

The system prompt instructs the model to append exactly
`\x7b"newFacts": ["fact 1", "fact 2"]\x7d`.  `mkMarker` builds that canonical
marker for a list of fact strings, and `mkFenced` its markdown-fenced variant;
`goodChar` restricts fact strings to ASCII letters, digits and spaces, which
keeps them free of JSON and regex metacharacters. -/

def goodChar (c : Char) : Bool :=
  (decide (65 ≤ c.toNat) && decide (c.toNat ≤ 90)) ||
  (decide (97 ≤ c.toNat) && decide (c.toNat ≤ 122)) ||
  (decide (48 ≤ c.toNat) && decide (c.toNat ≤ 57)) ||
  decide (c.toNat = 32)

def goodFact (f : String) : Bool := f.toList.all goodChar

/-- A JSON string literal for a fact. -/
def quoteLit (f : String) : List Char := '"' :: (f.toList ++ ['"'])

/-- Comma-separated JSON string literals. -/
def elemsLit : List String → List Char
  | [] => []
  | [f] => quoteLit f
  | f :: g :: rest => quoteLit f ++ ',' :: elemsLit (g :: rest)

/-- The canonical raw marker `\x7b"newFacts": [...]\x7d`. -/
def mkMarker (facts : List String) : List Char :=
  factsOpen ++ ' ' :: '[' :: (elemsLit facts ++ [']', '\x7d'])

/-- The canonical marker wrapped in markdown code fences. -/
def mkFenced (facts : List String) : List Char :=
  "```json\n".toList ++ (mkMarker facts ++ "\n```".toList)

/-! ### Helpers and concrete sample values used by witnesses -/

def exceptIsOk {α : Type} : Except String α → Bool
  | .ok _ => true
  | .error _ => false

def emptyStore : Store := fun _ => none

def emptyResultsData : ResultsData := ⟨none⟩

def sampleRace : RaceObj :=
  ⟨"2026", "1", "Australian Grand Prix", "2026-03-08",
    ⟨"Albert Park Grand Prix Circuit"⟩,
    some [⟨"1", "2", "58", "25", "Finished",
      ⟨"NOR", "Lando", "Norris", "British"⟩, ⟨"McLaren", "British"⟩,
      some ⟨"1:42:06.304"⟩, some ⟨some ⟨"1:20.235"⟩⟩⟩]⟩

def sampleResultsData : ResultsData :=
  ⟨some ⟨some ⟨some [sampleRace]⟩⟩⟩

def sampleDriverList : DriverStandingsListObj :=
  ⟨"2026", "1",
    some [⟨"1", "25", "1", ⟨"NOR", "Lando", "Norris", "British"⟩,
      [⟨"McLaren", "British"⟩]⟩]⟩

def sampleDriverData : DriverData :=
  ⟨some ⟨some ⟨some [sampleDriverList]⟩⟩⟩

def sampleConstructorList : ConstructorStandingsListObj :=
  ⟨"2026", "1", some [⟨"1", "43", "1", ⟨"McLaren", "British"⟩⟩]⟩

def sampleConstructorData : ConstructorData :=
  ⟨some ⟨some ⟨some [sampleConstructorList]⟩⟩⟩

def sampleCandidate : CandidateObj :=
  ⟨⟨[⟨some "Hello"⟩]⟩,
   some ⟨some [⟨some ⟨some "https://a.example", some "A"⟩⟩,
               ⟨some ⟨some "https://a.example", some "A again"⟩⟩,
               ⟨some ⟨some "https://b.example", none⟩⟩,
               ⟨none⟩]⟩⟩

/-! ## Theorems -/

theorem getDoc_setDoc_same (st : Store) (p : DocPath) (d : DocData) :
    getDoc (setDoc st p d) p = some d := by
  simp [getDoc, setDoc]

theorem getDoc_setDoc_ne (st : Store) (p q : DocPath) (d : DocData)
    (h : q ≠ p) : getDoc (setDoc st p d) q = getDoc st q := by
  simp [getDoc, setDoc, h]

theorem applyWrites_append (st : Store) (a b : List Write) :
    applyWrites st (a ++ b) = applyWrites (applyWrites st a) b := by
  simp [applyWrites, List.foldl_append]

theorem getDoc_applyWrites_untouched (ws : List Write) (st : Store)
    (p : DocPath) (h : ∀ w ∈ ws, w.path ≠ p) :
    getDoc (applyWrites st ws) p = getDoc st p := by
  induction ws generalizing st with
  | nil => rfl
  | cons w ws ih =>
    have h1 : w.path ≠ p := h w (by simp)
    have h2 : ∀ w' ∈ ws, w'.path ≠ p := fun w' hw' => h w' (by simp [hw'])
    calc getDoc (applyWrites st (w :: ws)) p
        = getDoc (applyWrites (setDoc st w.path w.data) ws) p := rfl
      _ = getDoc (setDoc st w.path w.data) p := ih _ h2
      _ = getDoc st p := getDoc_setDoc_ne _ _ _ _ (Ne.symm h1)

theorem eq_singleton_of_mem_of_length_le {α : Type} {l : List α} {w : α}
    (h : w ∈ l) (hl : l.length ≤ 1) : l = [w] := by
  match l, h with
  | [a], h => simp at h; rw [h]
  | a :: b :: t, _ => simp at hl

theorem length_resultWrites_le (rd : ResultsData) :
    (resultWrites rd).length ≤ 1 := by
  rcases hr : racesOf rd with _ | ⟨race, t⟩ <;> simp [resultWrites, hr]

theorem length_driverWrites_le (dd : DriverData) :
    (driverWrites dd).length ≤ 1 := by
  rcases hr : driverListsOf dd with _ | ⟨list, t⟩ <;> simp [driverWrites, hr]

theorem length_constructorWrites_le (cd : ConstructorData) :
    (constructorWrites cd).length ≤ 1 := by
  rcases hr : constructorListsOf cd with _ | ⟨list, t⟩ <;>
    simp [constructorWrites, hr]

theorem mem_resultWrites_path (rd : ResultsData) (w : Write)
    (h : w ∈ resultWrites rd) : w.path.1 = "results" := by
  rcases hr : racesOf rd with _ | ⟨race, t⟩ <;> simp [resultWrites, hr] at h
  rw [h]

theorem mem_driverWrites_path (dd : DriverData) (w : Write)
    (h : w ∈ driverWrites dd) : w.path = ("standings", "drivers") := by
  rcases hr : driverListsOf dd with _ | ⟨list, t⟩ <;>
    simp [driverWrites, hr] at h
  rw [h]

theorem mem_constructorWrites_path (cd : ConstructorData) (w : Write)
    (h : w ∈ constructorWrites cd) : w.path = ("standings", "constructors") := by
  rcases hr : constructorListsOf cd with _ | ⟨list, t⟩ <;>
    simp [constructorWrites, hr] at h
  rw [h]

/-- C10: for every user and race, `getUserPredictionForRace` returns `null`
exactly when no prediction record matches, otherwise the first matching record
in collection order — even when re-submission has created several matching
records — and `addPrediction` always inserts a fresh record with no
uniqueness check. -/
theorem getUserPredictionForRace_first_match (store : List Prediction)
    (userId raceId : String) :
    (getUserPredictionForRace store userId raceId = none ↔
      ∀ p ∈ store, ¬(p.userId = userId ∧ p.raceId = raceId))
    ∧ (∀ l1 p l2, store = l1 ++ p :: l2 → p.userId = userId →
        p.raceId = raceId →
        (∀ q ∈ l1, ¬(q.userId = userId ∧ q.raceId = raceId)) →
        getUserPredictionForRace store userId raceId = some p)
    ∧ (∀ newId dn rn w now,
        (addPrediction store newId userId dn raceId rn w now).length =
          store.length + 1) := by
  refine ⟨?_, ?_, ?_⟩
  · simp [getUserPredictionForRace, List.head?_eq_none_iff, List.filter_eq_nil_iff]
  · intro l1 p l2 hs hu hr hl1
    subst hs
    have hf1 : l1.filter (fun p => p.userId == userId && p.raceId == raceId) = [] := by
      simp only [List.filter_eq_nil_iff]
      intro q hq
      have := hl1 q hq
      simp only [Bool.and_eq_true, beq_iff_eq]
      tauto
    simp [getUserPredictionForRace, List.filter_append, hf1, List.filter_cons, hu, hr]
  · intro newId dn rn w now
    simp [addPrediction]

theorem getUserPredictionForRace_first_match_witness :
    getUserPredictionForRace
      [⟨"d1", "u", "Ann", "r", "GP", "NOR", 5⟩,
       ⟨"d2", "u", "Ann", "r", "GP", "VER", 9⟩] "u" "r" =
      some ⟨"d1", "u", "Ann", "r", "GP", "NOR", 5⟩ :=
  (getUserPredictionForRace_first_match _ "u" "r").2.1 []
    ⟨"d1", "u", "Ann", "r", "GP", "NOR", 5⟩
    [⟨"d2", "u", "Ann", "r", "GP", "VER", 9⟩] rfl rfl rfl (by simp)

/-- C9: the client read path `getRaceResult` and the sync-job write path
derive the same `results` document key for the same season and round: the
write for provider round string `toString round` lands at exactly
`getRaceResultDocId SEASON round`. -/
theorem raceResult_key_agreement (round : Nat) (rd : ResultsData)
    (race : RaceObj) (h1 : racesOf rd = [race])
    (h2 : race.round = toString round) :
    (resultWrites rd).map (·.path) =
      [("results", getRaceResultDocId SEASON round)] := by
  simp [resultWrites, h1, h2, getRaceResultDocId]

theorem raceResult_key_agreement_witness :
    (resultWrites sampleResultsData).map (·.path) =
      [("results", getRaceResultDocId SEASON 1)] :=
  raceResult_key_agreement 1 sampleResultsData _ rfl rfl

/-- C1 fails on the code: a cycle where the results fetch fails while both
standings fetches succeed (with a non-trivial staged write available) does not
skip just the failed source — the whole invocation fails and nothing at all is
committed. -/
theorem syncF1Data_partial_failure_counterexample :
    (syncF1Data (.error "HTTP 504") (.ok sampleDriverData)
      (.ok sampleConstructorData) true emptyStore).outcome = .error "HTTP 504"
    ∧ (syncF1Data (.error "HTTP 504") (.ok sampleDriverData)
        (.ok sampleConstructorData) true emptyStore).store = emptyStore
    ∧ driverWrites sampleDriverData ≠ [] :=
  ⟨rfl, rfl, by decide⟩

/-- C1 amended: `Promise.all` short-circuits — if any of the three provider
fetches fails, the whole invocation fails and no source is committed; the
invocation succeeds precisely when all three fetches succeed and the commit is
accepted. -/
theorem syncF1Data_any_fetch_error_fails_whole (rf : Except String ResultsData)
    (df : Except String DriverData) (cf : Except String ConstructorData)
    (ck : Bool) (store : Store) :
    ((exceptIsOk rf = false ∨ exceptIsOk df = false ∨ exceptIsOk cf = false) →
      (syncF1Data rf df cf ck store).store = store
      ∧ exceptIsOk (syncF1Data rf df cf ck store).outcome = false)
    ∧ (exceptIsOk rf = true → exceptIsOk df = true → exceptIsOk cf = true →
        ck = true → (syncF1Data rf df cf ck store).outcome = .ok ()) := by
  cases rf <;> cases df <;> cases cf <;>
    simp [syncF1Data, exceptIsOk]
  intro h
  simp [h]

theorem syncF1Data_any_fetch_error_fails_whole_witness :
    ((syncF1Data (.error "HTTP 504") (.ok sampleDriverData)
        (.ok sampleConstructorData) true emptyStore).store = emptyStore
      ∧ exceptIsOk (syncF1Data (.error "HTTP 504") (.ok sampleDriverData)
          (.ok sampleConstructorData) true emptyStore).outcome = false)
    ∧ (syncF1Data (.ok emptyResultsData) (.ok sampleDriverData)
        (.ok sampleConstructorData) true emptyStore).outcome = .ok () :=
  ⟨(syncF1Data_any_fetch_error_fails_whole _ _ _ _ _).1 (Or.inl rfl),
   (syncF1Data_any_fetch_error_fails_whole _ _ _ _ _).2 rfl rfl rfl rfl⟩

theorem getDoc_applyWrites_singleton (st : Store) (w : Write) :
    getDoc (applyWrites st [w]) w.path = some w.data :=
  getDoc_setDoc_same st w.path w.data

theorem path_fst_ne {p q : DocPath} (h : p.1 ≠ q.1) : p ≠ q := by
  intro he; exact h (congrArg Prod.fst he)

theorem path_snd_ne {p q : DocPath} (h : p.2 ≠ q.2) : p ≠ q := by
  intro he; exact h (congrArg Prod.snd he)

/-- C2: the cycle's writes are all-or-nothing — a rejected commit leaves the
store exactly as it was and reports a failure, and an accepted commit updates
every staged document to its staged contents. -/
theorem syncF1Data_atomic (rd : ResultsData) (dd : DriverData)
    (cd : ConstructorData) (store : Store) :
    ((syncF1Data (.ok rd) (.ok dd) (.ok cd) false store).store = store
      ∧ (syncF1Data (.ok rd) (.ok dd) (.ok cd) false store).outcome =
          .error "commit rejected")
    ∧ (∀ w ∈ stagedWrites rd dd cd,
        getDoc (syncF1Data (.ok rd) (.ok dd) (.ok cd) true store).store w.path
          = some w.data) := by
  refine ⟨⟨rfl, rfl⟩, ?_⟩
  intro w hw
  have hstore : (syncF1Data (.ok rd) (.ok dd) (.ok cd) true store).store
      = applyWrites store (stagedWrites rd dd cd) := rfl
  rw [hstore, stagedWrites, applyWrites_append, applyWrites_append]
  simp only [stagedWrites, List.mem_append] at hw
  rcases hw with (hw | hw) | hw
  · have hpath := mem_resultWrites_path rd w hw
    have hrw := eq_singleton_of_mem_of_length_le hw (length_resultWrites_le rd)
    rw [getDoc_applyWrites_untouched _ _ _ (fun w' hw' => by
      rw [mem_constructorWrites_path cd w' hw']
      exact path_fst_ne (by rw [hpath]; decide))]
    rw [getDoc_applyWrites_untouched _ _ _ (fun w' hw' => by
      rw [mem_driverWrites_path dd w' hw']
      exact path_fst_ne (by rw [hpath]; decide))]
    rw [hrw]
    exact getDoc_applyWrites_singleton store w
  · have hpath := mem_driverWrites_path dd w hw
    have hdw := eq_singleton_of_mem_of_length_le hw (length_driverWrites_le dd)
    rw [getDoc_applyWrites_untouched _ _ _ (fun w' hw' => by
      rw [mem_constructorWrites_path cd w' hw']
      exact path_snd_ne (by rw [hpath]; decide))]
    rw [hdw]
    exact getDoc_applyWrites_singleton _ w
  · have hcw := eq_singleton_of_mem_of_length_le hw
      (length_constructorWrites_le cd)
    rw [hcw]
    exact getDoc_applyWrites_singleton _ w

theorem syncF1Data_atomic_witness :
    ((syncF1Data (.ok sampleResultsData) (.ok sampleDriverData)
        (.ok sampleConstructorData) false emptyStore).store = emptyStore
      ∧ (syncF1Data (.ok sampleResultsData) (.ok sampleDriverData)
          (.ok sampleConstructorData) false emptyStore).outcome =
            .error "commit rejected")
    ∧ (∀ w ∈ stagedWrites sampleResultsData sampleDriverData
        sampleConstructorData,
        getDoc (syncF1Data (.ok sampleResultsData) (.ok sampleDriverData)
          (.ok sampleConstructorData) true emptyStore).store w.path
          = some w.data) :=
  syncF1Data_atomic sampleResultsData sampleDriverData sampleConstructorData
    emptyStore

/-- C3: when the provider's results response contains exactly one race, the
job stages exactly one `results` write, keyed by the season and the
zero-padded round, with `round`, `position`, `grid`, `laps` and `points`
coerced through `Number` and `status`/`time` kept as (optional) strings. -/
theorem syncF1Data_single_race_write (rd : ResultsData) (dd : DriverData)
    (cd : ConstructorData) (race : RaceObj) (h : racesOf rd = [race]) :
    resultWrites rd =
      [⟨("results", toString SEASON ++ "_" ++ padStart 2 '0' race.round),
        .resultDoc
          { season := jsNumber race.season
            round := jsNumber race.round
            raceName := race.raceName
            date := race.date
            circuit := race.Circuit.circuitName
            results := (race.Results.getD []).map (fun r =>
              { position := jsNumber r.position
                driverCode := r.Driver.code
                driverName := r.Driver.givenName ++ " " ++ r.Driver.familyName
                constructor := r.Constructor.name
                grid := jsNumber r.grid
                laps := jsNumber r.laps
                status := r.status
                points := jsNumber r.points
                time := r.Time.map (·.time)
                fastestLap := (r.FastestLap.bind (·.Time)).map (·.time) })
            updatedAt := .serverTimestamp }⟩]
    ∧ ((stagedWrites rd dd cd).filter
        (fun w => w.path.1 == "results")).length = 1 := by
  constructor
  · simp [resultWrites, h]
  · have hr1 : (resultWrites rd).filter (fun w => w.path.1 == "results")
        = resultWrites rd := by
      rw [List.filter_eq_self]
      intro w hw
      rw [mem_resultWrites_path rd w hw]
      rfl
    have hlen : (resultWrites rd).length = 1 := by simp [resultWrites, h]
    have hd : (driverWrites dd).filter (fun w => w.path.1 == "results") = [] := by
      simp only [List.filter_eq_nil_iff]
      intro w hw
      rw [mem_driverWrites_path dd w hw]
      decide
    have hc : (constructorWrites cd).filter
        (fun w => w.path.1 == "results") = [] := by
      simp only [List.filter_eq_nil_iff]
      intro w hw
      rw [mem_constructorWrites_path cd w hw]
      decide
    simp [stagedWrites, List.filter_append, hr1, hd, hc, hlen]

theorem syncF1Data_single_race_write_witness :
    resultWrites sampleResultsData =
      [⟨("results",
          toString SEASON ++ "_" ++ padStart 2 '0' sampleRace.round),
        .resultDoc
          { season := jsNumber sampleRace.season
            round := jsNumber sampleRace.round
            raceName := sampleRace.raceName
            date := sampleRace.date
            circuit := sampleRace.Circuit.circuitName
            results := (sampleRace.Results.getD []).map (fun r =>
              { position := jsNumber r.position
                driverCode := r.Driver.code
                driverName := r.Driver.givenName ++ " " ++ r.Driver.familyName
                constructor := r.Constructor.name
                grid := jsNumber r.grid
                laps := jsNumber r.laps
                status := r.status
                points := jsNumber r.points
                time := r.Time.map (·.time)
                fastestLap := (r.FastestLap.bind (·.Time)).map (·.time) })
            updatedAt := .serverTimestamp }⟩]
    ∧ ((stagedWrites sampleResultsData sampleDriverData
        sampleConstructorData).filter
        (fun w => w.path.1 == "results")).length = 1 :=
  syncF1Data_single_race_write sampleResultsData sampleDriverData
    sampleConstructorData sampleRace rfl

/-- C4: when the results response carries zero races, the cycle writes and
modifies nothing in the `results` collection, and (with the other fetches
succeeding and the commit accepted) the invocation still completes
successfully. -/
theorem syncF1Data_empty_races (rd : ResultsData) (dd : DriverData)
    (cd : ConstructorData) (ck : Bool) (store : Store)
    (h : racesOf rd = []) :
    (∀ docId,
      getDoc (syncF1Data (.ok rd) (.ok dd) (.ok cd) ck store).store
        ("results", docId) = getDoc store ("results", docId))
    ∧ (ck = true →
        (syncF1Data (.ok rd) (.ok dd) (.ok cd) ck store).outcome = .ok ()) := by
  constructor
  · intro docId
    cases ck
    · rfl
    · have hstore : (syncF1Data (.ok rd) (.ok dd) (.ok cd) true store).store
          = applyWrites store (stagedWrites rd dd cd) := rfl
      rw [hstore]
      apply getDoc_applyWrites_untouched
      intro w hw
      have hrw : resultWrites rd = [] := by simp [resultWrites, h]
      simp only [stagedWrites, List.mem_append] at hw
      rcases hw with (hw | hw) | hw
      · rw [hrw] at hw; simp at hw
      · rw [mem_driverWrites_path dd w hw]; simp
      · rw [mem_constructorWrites_path cd w hw]; simp
  · intro hck; subst hck; rfl

theorem syncF1Data_empty_races_witness :
    (∀ docId,
      getDoc (syncF1Data (.ok emptyResultsData) (.ok sampleDriverData)
        (.ok sampleConstructorData) true emptyStore).store
        ("results", docId) = getDoc emptyStore ("results", docId))
    ∧ (true = true →
        (syncF1Data (.ok emptyResultsData) (.ok sampleDriverData)
          (.ok sampleConstructorData) true emptyStore).outcome = .ok ()) :=
  syncF1Data_empty_races emptyResultsData sampleDriverData
    sampleConstructorData true emptyStore rfl

/-- C5: after a committed cycle whose driver-standings fetch yields a
non-empty standings list, `standings/drivers` holds exactly the entries
mapped from that latest fetch — a full overwrite independent of whatever any
previous run had stored; likewise for `standings/constructors`. -/
theorem syncF1Data_standings_full_overwrite (rd : ResultsData)
    (dd : DriverData) (cd : ConstructorData) (store : Store) :
    (∀ list rest, driverListsOf dd = list :: rest →
      getDoc (syncF1Data (.ok rd) (.ok dd) (.ok cd) true store).store
        ("standings", "drivers")
        = some (.driverStandingsDoc
            { season := jsNumber list.season
              round := jsNumber list.round
              standings := (list.DriverStandings.getD []).map (fun s =>
                { position := jsNumber s.position
                  driverCode := s.Driver.code
                  driverName := s.Driver.givenName ++ " " ++ s.Driver.familyName
                  nationality := s.Driver.nationality
                  constructor := ((s.Constructors.head?).map (·.name)).getD "—"
                  points := jsNumber s.points
                  wins := jsNumber s.wins })
              updatedAt := .serverTimestamp }))
    ∧ (∀ list rest, constructorListsOf cd = list :: rest →
      getDoc (syncF1Data (.ok rd) (.ok dd) (.ok cd) true store).store
        ("standings", "constructors")
        = some (.constructorStandingsDoc
            { season := jsNumber list.season
              round := jsNumber list.round
              standings := (list.ConstructorStandings.getD []).map (fun s =>
                { position := jsNumber s.position
                  name := s.Constructor.name
                  nationality := s.Constructor.nationality
                  points := jsNumber s.points
                  wins := jsNumber s.wins })
              updatedAt := .serverTimestamp })) := by
  have hstore : (syncF1Data (.ok rd) (.ok dd) (.ok cd) true store).store
      = applyWrites store (stagedWrites rd dd cd) := rfl
  constructor
  · intro list rest h
    rw [hstore, stagedWrites, applyWrites_append, applyWrites_append]
    rw [getDoc_applyWrites_untouched _ _ _ (fun w' hw' => by
      rw [mem_constructorWrites_path cd w' hw']; simp)]
    simp only [driverWrites, h]
    exact getDoc_setDoc_same _ _ _
  · intro list rest h
    rw [hstore, stagedWrites, applyWrites_append]
    simp only [constructorWrites, h]
    exact getDoc_setDoc_same _ _ _

theorem syncF1Data_standings_full_overwrite_witness :
    getDoc (syncF1Data (.ok sampleResultsData) (.ok sampleDriverData)
        (.ok sampleConstructorData) true emptyStore).store
      ("standings", "drivers")
      = some (.driverStandingsDoc
          { season := jsNumber sampleDriverList.season
            round := jsNumber sampleDriverList.round
            standings := (sampleDriverList.DriverStandings.getD []).map
              (fun s =>
                { position := jsNumber s.position
                  driverCode := s.Driver.code
                  driverName := s.Driver.givenName ++ " " ++ s.Driver.familyName
                  nationality := s.Driver.nationality
                  constructor := ((s.Constructors.head?).map (·.name)).getD "—"
                  points := jsNumber s.points
                  wins := jsNumber s.wins })
            updatedAt := .serverTimestamp }) :=
  (syncF1Data_standings_full_overwrite sampleResultsData sampleDriverData
    sampleConstructorData emptyStore).1 sampleDriverList [] rfl

/-- C6: a POST whose Authorization header is missing, lacks the `Bearer `
scheme, or carries a token rejected by verification is answered 401 with no
model call, while an upstream model failure after successful auth is answered
500 (a 5xx) with the model call made — the two failure classes are
distinguishable. -/
theorem askF1Expert_auth_gate (req : ChatRequest)
    (verify : String → Except String String)
    (modelResp : Except String (Option (List CandidateObj)))
    (hm : req.method = "POST") :
    (strStartsWith (req.authorization.getD "") "Bearer " = false →
      (askF1Expert req verify modelResp).status = 401
      ∧ (askF1Expert req verify modelResp).modelCalled = false)
    ∧ (∀ e, strStartsWith (req.authorization.getD "") "Bearer " = true →
        verify (strDrop (req.authorization.getD "") 7) = .error e →
        (askF1Expert req verify modelResp).status = 401
        ∧ (askF1Expert req verify modelResp).modelCalled = false)
    ∧ (∀ uid m ms e,
        verify (strDrop (req.authorization.getD "") 7) = .ok uid →
        strStartsWith (req.authorization.getD "") "Bearer " = true →
        req.body.bind (·.messages) = some (m :: ms) →
        modelResp = .error e →
        (askF1Expert req verify modelResp).status = 500
        ∧ (askF1Expert req verify modelResp).modelCalled = true) := by
  have h1 : (req.method == "OPTIONS") = false := by rw [hm]; rfl
  have h2 : (req.method != "POST") = false := by rw [hm]; rfl
  refine ⟨?_, ?_, ?_⟩
  · intro hauth
    simp [askF1Expert, h1, h2, hauth]
  · intro e hauth hver
    simp [askF1Expert, h1, h2, hauth, hver]
  · intro uid m ms e hver hauth hmsgs hresp
    simp [askF1Expert, h1, h2, hauth, hver, hmsgs, hresp]

theorem askF1Expert_auth_gate_witness :
    ((askF1Expert ⟨"POST", none, none, none⟩ (fun _ => .error "bad")
        (.ok none)).status = 401
      ∧ (askF1Expert ⟨"POST", none, none, none⟩ (fun _ => .error "bad")
          (.ok none)).modelCalled = false)
    ∧ ((askF1Expert ⟨"POST", none, some "Bearer tok",
          some ⟨some [⟨"user", "hi"⟩]⟩⟩ (fun _ => .ok "uid1")
          (.error "boom")).status = 500
      ∧ (askF1Expert ⟨"POST", none, some "Bearer tok",
          some ⟨some [⟨"user", "hi"⟩]⟩⟩ (fun _ => .ok "uid1")
          (.error "boom")).modelCalled = true) :=
  ⟨(askF1Expert_auth_gate ⟨"POST", none, none, none⟩ (fun _ => .error "bad")
      (.ok none) rfl).1 (by decide),
   (askF1Expert_auth_gate ⟨"POST", none, some "Bearer tok",
      some ⟨some [⟨"user", "hi"⟩]⟩⟩ (fun _ => .ok "uid1")
      (.error "boom") rfl).2.2 "uid1" ⟨"user", "hi"⟩ [] "boom" rfl
      (by decide) rfl rfl⟩

theorem enumFrom_filter_map_snd_sublist {α : Type} (p : Nat × α → Bool)
    (n : Nat) (l : List α) :
    (((l.enumFrom n).filter p).map Prod.snd).Sublist l := by
  induction l generalizing n with
  | nil => simp
  | cons a t ih =>
    rw [List.enumFrom_cons, List.filter_cons]
    cases hp : p (n, a)
    · simpa using (ih (n + 1)).cons a
    · simpa using (ih (n + 1)).cons₂ a

theorem enumFrom_pairwise_fst {α : Type} (n : Nat) (l : List α) :
    (l.enumFrom n).Pairwise (fun a b => a.1 < b.1) := by
  induction l generalizing n with
  | nil => simp
  | cons a t ih =>
    rw [List.enumFrom_cons]
    refine List.Pairwise.cons ?_ (ih (n + 1))
    rintro ⟨i, x⟩ hb
    have := (List.mk_mem_enumFrom_iff_le_and_getElem?_sub.mp hb).1
    omega

theorem dedupByUrl_sublist (l : List SourceEntry) :
    (dedupByUrl l).Sublist l :=
  enumFrom_filter_map_snd_sublist _ 0 l

theorem mem_dedupByUrl_first (l : List SourceEntry) (s : SourceEntry)
    (h : s ∈ dedupByUrl l) :
    l[l.findIdx (fun x => x.url == s.url)]? = some s := by
  unfold dedupByUrl at h
  obtain ⟨⟨i, x⟩, hmem, hx⟩ := List.mem_map.mp h
  cases hx
  obtain ⟨hin, hpred⟩ := List.mem_filter.mp hmem
  have hidx : l.findIdx (fun y => y.url == x.url) = i := by
    simpa using hpred
  rw [hidx]
  exact List.mk_mem_enum_iff_getElem?.mp hin

theorem dedupByUrl_nodup_urls (l : List SourceEntry) :
    ((dedupByUrl l).map (·.url)).Nodup := by
  unfold dedupByUrl
  rw [List.map_map, List.Nodup, List.pairwise_map]
  have hp : ((l.enum.filter
      (fun p => l.findIdx (fun x => x.url == p.2.url) == p.1)).Pairwise
        (fun a b => a.1 < b.1)) :=
    (enumFrom_pairwise_fst 0 l).filter _
  refine List.Pairwise.imp_of_mem ?_ hp
  intro a b ha hb hlt
  have hpa := (List.mem_filter.mp ha).2
  have hpb := (List.mem_filter.mp hb).2
  have ia : l.findIdx (fun x => x.url == a.2.url) = a.1 := by simpa using hpa
  have ib : l.findIdx (fun x => x.url == b.2.url) = b.1 := by simpa using hpb
  intro hurl
  have hurl2 : a.2.url = b.2.url := hurl
  have hfun : (fun x : SourceEntry => x.url == a.2.url) =
      (fun x : SourceEntry => x.url == b.2.url) := by
    funext x; rw [hurl2]
  rw [hfun, ib] at ia
  omega

/-- C8: the grounding-source list returned by the chat proxy never has two
entries with the same URL, keeps only the first occurrence of each URL in
order (it is a sublist of the mapped chunk list whose entries each sit at the
first index of their URL), and never exceeds the cap of 5. -/
theorem askF1Expert_sources_dedup_cap (cand : CandidateObj) :
    ((sourcesOf cand).map (·.url)).Nodup
    ∧ (sourcesOf cand).length ≤ 5
    ∧ (sourcesOf cand).Sublist (mappedSources cand)
    ∧ ∀ s ∈ sourcesOf cand,
        (mappedSources cand)[(mappedSources cand).findIdx
          (fun x => x.url == s.url)]? = some s := by
  refine ⟨?_, ?_, ?_, ?_⟩
  · have h1 : ((dedupByUrl (mappedSources cand)).map (·.url)).Nodup :=
      dedupByUrl_nodup_urls _
    have h2 : (sourcesOf cand).map (·.url) =
        ((dedupByUrl (mappedSources cand)).map (·.url)).take 5 := by
      rw [sourcesOf, List.map_take]
    rw [h2]
    exact h1.sublist (List.take_sublist _ _)
  · exact List.length_take_le _ _
  · exact (List.take_sublist _ _).trans (dedupByUrl_sublist _)
  · intro s hs
    exact mem_dedupByUrl_first _ s (List.mem_of_mem_take hs)

theorem askF1Expert_sources_dedup_cap_witness :
    ((sourcesOf sampleCandidate).map (·.url)).Nodup
    ∧ (sourcesOf sampleCandidate).length ≤ 5
    ∧ (sourcesOf sampleCandidate).Sublist (mappedSources sampleCandidate)
    ∧ ∀ s ∈ sourcesOf sampleCandidate,
        (mappedSources sampleCandidate)[(mappedSources
          sampleCandidate).findIdx (fun x => x.url == s.url)]? = some s :=
  askF1Expert_sources_dedup_cap sampleCandidate

/-! ### Leftmost-match machinery for the fact-marker regex -/

theorem cons_prefix_head {a b : Char} {l₁ l₂ : List Char}
    (h : (a :: l₁) <+: (b :: l₂)) : a = b :=
  (List.cons_prefix_cons.mp h).1

/-- If `t` occurs nowhere inside `p` and no proper tail of `t` is a prefix of
`s`, then `t` is not a prefix of any nonempty suffix of `p` followed by `s` —
i.e. the leftmost occurrence of `t` in `p ++ s` cannot start inside `p`. -/
theorem not_prefix_at_suffix (t p s : List Char) (h1 : ¬ t <:+: p)
    (h2 : ∀ k, 0 < k → k < t.length → ¬ t.drop k <+: s) :
    ∀ q, q <:+ p → q ≠ [] → ¬ t <+: (q ++ s) := by
  intro q hq hqne htq
  by_cases hlen : t.length ≤ q.length
  · have h3 : t <+: q :=
      List.prefix_of_prefix_length_le htq (List.prefix_append q s) hlen
    exact h1 (List.infix_iff_prefix_suffix.mpr ⟨q, h3, hq⟩)
  · push_neg at hlen
    have h3 : q <+: t :=
      List.prefix_of_prefix_length_le (List.prefix_append q s) htq
        (le_of_lt hlen)
    obtain ⟨r, hr⟩ := h3
    have hk0 : 0 < q.length := List.length_pos.mpr hqne
    have hdrop : t.drop q.length = r := by
      rw [← hr]; exact List.drop_left q r
    obtain ⟨b, hb⟩ := htq
    rw [← hr, List.append_assoc] at hb
    have h5 : r ++ b = s := List.append_cancel_left hb
    refine h2 q.length hk0 hlen ?_
    rw [hdrop]
    exact ⟨b, h5⟩

theorem matchA_none_of_not_prefix {l : List Char} (h : ¬ fenceOpen <+: l) :
    matchA l = none := by
  have hb : fenceOpen.isPrefixOf l = false :=
    Bool.eq_false_iff.mpr (fun ht => h (List.isPrefixOf_iff_prefix.mp ht))
  simp [matchA, stripLit, hb]

theorem matchB_false_of_not_prefix {l : List Char} (h : ¬ factsOpen <+: l) :
    matchB l = false := by
  have hb : factsOpen.isPrefixOf l = false :=
    Bool.eq_false_iff.mpr (fun ht => h (List.isPrefixOf_iff_prefix.mp ht))
  simp [matchB, stripLit, hb]

/-- The scan of `jsMatch` passes over a prefix at whose suffix positions
neither alternative matches. -/
theorem jsMatch_append (p s : List Char)
    (hA : ∀ q, q <:+ p → q ≠ [] → matchA (q ++ s) = none)
    (hB : ∀ q, q <:+ p → q ≠ [] → matchB (q ++ s) = false) :
    jsMatch (p ++ s) = jsMatch s := by
  induction p with
  | nil => rfl
  | cons c p' ih =>
    have e1 := hA (c :: p') (List.suffix_refl _) (by simp)
    have e2 := hB (c :: p') (List.suffix_refl _) (by simp)
    rw [List.cons_append] at e1 e2
    have step : jsMatch ((c :: p') ++ s) = jsMatch (p' ++ s) := by
      rw [List.cons_append, jsMatch, e1, e2]
      simp
    rw [step]
    exact ih (fun q hq hqne => hA q (hq.trans (List.suffix_cons c p')) hqne)
      (fun q hq hqne => hB q (hq.trans (List.suffix_cons c p')) hqne)

theorem jsMatch_here_B (l : List Char) (hne : l ≠ [])
    (hA : matchA l = none) (hB : matchB l = true) :
    jsMatch l = some (l, none) := by
  cases l with
  | nil => exact absurd rfl hne
  | cons c t => rw [jsMatch, hA, hB]; rfl

theorem jsMatch_here_A (l g : List Char) (hne : l ≠ [])
    (hA : matchA l = some g) :
    jsMatch l = some (l, some g) := by
  cases l with
  | nil => exact absurd rfl hne
  | cons c t => rw [jsMatch, hA]

theorem replaceFirst_cons_of_not_prefix {pat : List Char} {c : Char}
    {t : List Char} (h : ¬ pat <+: (c :: t)) :
    replaceFirst pat (c :: t) = c :: replaceFirst pat t := by
  have e1 : pat.isPrefixOf (c :: t) = false :=
    Bool.eq_false_iff.mpr (fun ht => h (List.isPrefixOf_iff_prefix.mp ht))
  rw [replaceFirst.eq_def]
  simp [e1]

theorem replaceFirst_append (pat p s : List Char)
    (h : ∀ q, q <:+ p → q ≠ [] → ¬ pat <+: (q ++ s)) :
    replaceFirst pat (p ++ s) = p ++ replaceFirst pat s := by
  induction p with
  | nil => rfl
  | cons c p' ih =>
    have e1 := h (c :: p') (List.suffix_refl _) (by simp)
    rw [List.cons_append] at e1
    rw [List.cons_append, replaceFirst_cons_of_not_prefix e1]
    rw [ih (fun q hq hqne => h q (hq.trans (List.suffix_cons c p')) hqne)]
    rfl

theorem replaceFirst_of_prefix (pat rest : List Char) :
    replaceFirst pat (pat ++ rest) = rest := by
  have e1 : pat.isPrefixOf (pat ++ rest) = true :=
    List.isPrefixOf_iff_prefix.mpr (List.prefix_append pat rest)
  rw [replaceFirst.eq_def]
  cases hp : pat ++ rest <;> simp [e1, ← hp, List.drop_left]

/-! ### The matcher on the canonical marker family -/

theorem goodChar_facts (c : Char) (h : goodChar c = true) :
    c ≠ '`' ∧ c ≠ '\n' ∧ c ≠ '"' ∧ c ≠ '\\' ∧ 32 ≤ c.toNat := by
  have hv : (65 ≤ c.toNat ∧ c.toNat ≤ 90) ∨ (97 ≤ c.toNat ∧ c.toNat ≤ 122) ∨
      (48 ≤ c.toNat ∧ c.toNat ≤ 57) ∨ c.toNat = 32 := by
    simp only [goodChar, Bool.or_eq_true, Bool.and_eq_true,
      decide_eq_true_eq] at h
    tauto
  refine ⟨?_, ?_, ?_, ?_, by omega⟩ <;> (intro he; subst he; revert hv; decide)

theorem mkMarker_eq (facts : List String) :
    mkMarker facts = '\x7b' :: '"' :: 'n' :: 'e' :: 'w' :: 'F' :: 'a' :: 'c' ::
      't' :: 's' :: '"' :: ':' :: ' ' :: '[' ::
      (elemsLit facts ++ [']', '\x7d']) := rfl

theorem mkMarker_ne_nil (facts : List String) : mkMarker facts ≠ [] := by
  rw [mkMarker_eq]; simp

theorem mkFenced_eq (facts : List String) :
    mkFenced facts = '`' :: '`' :: '`' :: 'j' :: 's' :: 'o' :: 'n' :: '\n' ::
      (mkMarker facts ++ ['\n', '`', '`', '`']) := rfl

theorem head?_ne_not_prefix {l : List Char} {c : Char} {s : List Char}
    (hne : l ≠ []) (hh : l.head? ≠ some c) : ¬ l <+: (c :: s) := by
  cases l with
  | nil => exact absurd rfl hne
  | cons a t =>
    intro hp
    exact hh (by rw [cons_prefix_head hp]; rfl)

theorem elemsLit_chars (facts : List String)
    (hg : ∀ f ∈ facts, goodFact f = true) :
    ∀ c ∈ elemsLit facts, c ≠ '`' ∧ c ≠ '\n' := by
  induction facts with
  | nil => simp [elemsLit]
  | cons f rest ih =>
    have hf : ∀ c ∈ f.toList, goodChar c = true := by
      have := hg f (by simp)
      simpa [goodFact, List.all_eq_true] using this
    have hq : ∀ c ∈ quoteLit f, c ≠ '`' ∧ c ≠ '\n' := by
      intro c hc
      rcases (by simpa [quoteLit] using hc :
          c = '"' ∨ c ∈ f.toList ∨ c = '"') with rfl | hcf | rfl
      · exact ⟨by decide, by decide⟩
      · have := goodChar_facts c (hf c hcf)
        exact ⟨this.1, this.2.1⟩
      · exact ⟨by decide, by decide⟩
    cases rest with
    | nil => simpa [elemsLit] using hq
    | cons g rest' =>
      intro c hc
      rcases (by simpa [elemsLit] using hc :
          c ∈ quoteLit f ∨ c = ',' ∨ c ∈ elemsLit (g :: rest')) with
        hcq | rfl | hcr
      · exact hq c hcq
      · exact ⟨by decide, by decide⟩
      · exact ih (fun f' hf' => hg f' (by simp [hf'])) c hcr

theorem mkMarker_chars (facts : List String)
    (hg : ∀ f ∈ facts, goodFact f = true) :
    ∀ c ∈ mkMarker facts, c ≠ '`' ∧ c ≠ '\n' := by
  intro c hc
  rcases (by simpa [mkMarker, List.mem_append] using hc :
      c ∈ factsOpen ∨ (c = ' ' ∨ c = '[' ∨
        (c ∈ elemsLit facts ∨ c = ']' ∨ c = '\x7d'))) with hc1 | hc2
  · have hfo : ∀ c ∈ factsOpen, c ≠ '`' ∧ c ≠ '\n' := by decide
    exact hfo c hc1
  · rcases hc2 with rfl | rfl | hc3 | rfl | rfl
    · exact ⟨by decide, by decide⟩
    · exact ⟨by decide, by decide⟩
    · exact elemsLit_chars facts hg c hc3
    · exact ⟨by decide, by decide⟩
    · exact ⟨by decide, by decide⟩

theorem isPrefixOf_append_self (l r : List Char) :
    l.isPrefixOf (l ++ r) = true :=
  List.isPrefixOf_iff_prefix.mpr (List.prefix_append l r)

theorem existsCloseB_append_end (x : List Char) :
    existsCloseB (x ++ [']', '\x7d']) = true := by
  induction x with
  | nil => decide
  | cons c t ih =>
    rw [List.cons_append]
    by_cases h : closeB (c :: (t ++ [']', '\x7d']))
    · rw [existsCloseB.eq_def]; simp [h]
    · rw [existsCloseB.eq_def]; simp [h, ih]

theorem matchB_marker (facts : List String) :
    matchB (mkMarker facts) = true := by
  have hws : isWsChar ' ' = true := by decide
  have hbr : isWsChar '[' = false := by decide
  simp [matchB, stripLit, mkMarker, isPrefixOf_append_self, List.drop_left,
    List.dropWhile_cons, hws, hbr, existsCloseB_append_end]

theorem matchA_marker_none (facts : List String) :
    matchA (mkMarker facts) = none := by
  apply matchA_none_of_not_prefix
  rw [mkMarker_eq]
  exact head?_ne_not_prefix (by decide) (by decide)

theorem closeA_false_of_head {c : Char} {t : List Char}
    (h1 : c ≠ '`') (h2 : c ≠ '\n') : closeA (c :: t) = false := by
  have hpre : fenceClose.isPrefixOf (c :: t) = false :=
    Bool.eq_false_iff.mpr (fun hb =>
      h1 (cons_prefix_head (List.isPrefixOf_iff_prefix.mp hb)).symm)
  simp only [closeA, hpre, Bool.false_and, Bool.false_or]
  split
  · rename_i r heq
    exact absurd (List.head_eq_of_cons_eq heq) h2
  · rfl

theorem findBody_append_tail (x : List Char)
    (hx : ∀ c ∈ x, c ≠ '`' ∧ c ≠ '\n') :
    findBody (x ++ ['\n', '`', '`', '`']) = some x := by
  induction x with
  | nil => decide
  | cons c t ih =>
    have hc := hx c (by simp)
    rw [List.cons_append, findBody.eq_def]
    simp [closeA_false_of_head hc.1 hc.2,
      ih (fun c' hc' => hx c' (by simp [hc']))]

theorem matchA_fenced (facts : List String)
    (hg : ∀ f ∈ facts, goodFact f = true) :
    matchA (mkFenced facts) = some (mkMarker facts) := by
  have h1 : fenceOpen.isPrefixOf (mkFenced facts) = true :=
    List.isPrefixOf_iff_prefix.mpr
      ⟨'\n' :: (mkMarker facts ++ ['\n', '`', '`', '`']), rfl⟩
  have h2 : (mkFenced facts).drop fenceOpen.length =
      '\n' :: (mkMarker facts ++ ['\n', '`', '`', '`']) := rfl
  simp only [matchA, stripLit, h1, if_true, h2]
  exact findBody_append_tail _ (mkMarker_chars facts hg)

/-! ### `JSON.parse` on the canonical marker -/

theorem string_mk_toList (f : String) : String.mk f.toList = f := rfl

/-- One-step unfolding of `parseValue` at successor fuel (definitional). -/
theorem parseValue_succ (fu : Nat) (l : List Char) :
    parseValue (fu + 1) l =
      match skipJsonWs l with
      | [] => none
      | '"' :: rest =>
        match strBody rest with
        | none => none
        | some (cs, r) => some (.str (String.mk cs), r)
      | '\x7b' :: rest =>
        match skipJsonWs rest with
        | '\x7d' :: r2 => some (.obj [], r2)
        | r => (parseMembers fu r).map (fun m => (.obj m.1, m.2))
      | '[' :: rest =>
        match skipJsonWs rest with
        | ']' :: r2 => some (.arr [], r2)
        | r => (parseElems fu r).map (fun m => (.arr m.1, m.2))
      | 't' :: 'r' :: 'u' :: 'e' :: r => some (.bool true, r)
      | 'f' :: 'a' :: 'l' :: 's' :: 'e' :: r => some (.bool false, r)
      | 'n' :: 'u' :: 'l' :: 'l' :: r => some (.null, r)
      | l2 => (parseNumber l2).map (fun m => (.num m.1, m.2)) := rfl

/-- One-step unfolding of `parseElems` at successor fuel (definitional). -/
theorem parseElems_succ (fu : Nat) (l : List Char) :
    parseElems (fu + 1) l =
      match parseValue fu l with
      | none => none
      | some (v, r) =>
        match skipJsonWs r with
        | ',' :: r2 =>
          match parseElems fu r2 with
          | none => none
          | some (vs, r3) => some (v :: vs, r3)
        | ']' :: r2 => some ([v], r2)
        | _ => none := rfl

/-- One-step unfolding of `parseMembers` at successor fuel (definitional). -/
theorem parseMembers_succ (fu : Nat) (l : List Char) :
    parseMembers (fu + 1) l =
      match skipJsonWs l with
      | '"' :: rest =>
        match strBody rest with
        | none => none
        | some (k, r1) =>
          match skipJsonWs r1 with
          | ':' :: r2 =>
            match parseValue fu r2 with
            | none => none
            | some (v, r3) =>
              match skipJsonWs r3 with
              | ',' :: r4 =>
                match parseMembers fu r4 with
                | none => none
                | some (ms, r5) => some ((String.mk k, v) :: ms, r5)
              | '\x7d' :: r4 => some ([(String.mk k, v)], r4)
              | _ => none
          | _ => none
      | _ => none := rfl

theorem skipJsonWs_cons_of_not_ws {c : Char} (h : jsonWsChar c = false)
    (l : List Char) : skipJsonWs (c :: l) = c :: l := by
  rw [skipJsonWs, List.dropWhile_cons, h]
  rfl

theorem skipJsonWs_cons_sp (l : List Char) :
    skipJsonWs (' ' :: l) = skipJsonWs l := by
  rw [skipJsonWs, List.dropWhile_cons]
  rfl

theorem strBody_plain_cons (c : Char) (l : List Char) (h1 : c ≠ '"')
    (h2 : c ≠ '\\') (h3 : 32 ≤ c.toNat) :
    strBody (c :: l) = (strBody l).map (fun p => (c :: p.1, p.2)) := by
  rw [strBody.eq_def]
  simp only []
  rw [if_neg h1, if_neg h2, if_neg (by omega)]
  cases strBody l <;> rfl

theorem strBody_closes (cs rest : List Char)
    (h : ∀ c ∈ cs, c ≠ '"' ∧ c ≠ '\\' ∧ 32 ≤ c.toNat) :
    strBody (cs ++ '"' :: rest) = some (cs, rest) := by
  induction cs with
  | nil =>
    rw [List.nil_append, strBody.eq_def]
    simp
  | cons c t ih =>
    have hc := h c (by simp)
    rw [List.cons_append, strBody_plain_cons c _ hc.1 hc.2.1 hc.2.2,
      ih (fun c' hc' => h c' (by simp [hc']))]
    rfl

/-- Head-shape corollary of `parseValue_succ` (definitional). -/
theorem parseValue_quote (fu : Nat) (rest : List Char) :
    parseValue (fu + 1) ('"' :: rest) =
      match strBody rest with
      | none => none
      | some (cs, r) => some (.str (String.mk cs), r) := rfl

theorem parseValue_str (fu : Nat) (cs rest : List Char)
    (h : ∀ c ∈ cs, c ≠ '"' ∧ c ≠ '\\' ∧ 32 ≤ c.toNat) :
    parseValue (fu + 1) ('"' :: (cs ++ '"' :: rest)) =
      some (.str (String.mk cs), rest) := by
  rw [parseValue_quote, strBody_closes cs rest h]

theorem goodFact_chars (f : String) (hf : goodFact f = true) :
    ∀ c ∈ f.toList, c ≠ '"' ∧ c ≠ '\\' ∧ 32 ≤ c.toNat := by
  intro c hc
  rw [goodFact, List.all_eq_true] at hf
  have := goodChar_facts c (hf c hc)
  exact ⟨this.2.2.1, this.2.2.2.1, this.2.2.2.2⟩

theorem parseElems_facts (facts : List String) :
    ∀ fu : Nat, facts ≠ [] → (∀ f ∈ facts, goodFact f = true) →
    2 * facts.length ≤ fu + 1 →
    parseElems (fu + 1) (elemsLit facts ++ [']', '\x7d']) =
      some (facts.map Json.str, ['\x7d']) := by
  induction facts with
  | nil => intro fu hne _ _; exact absurd rfl hne
  | cons f rest ih =>
    intro fu _ hg hfu
    have hplain := goodFact_chars f (hg f (by simp))
    obtain ⟨fu2, rfl⟩ : ∃ k, fu = k + 1 :=
      ⟨fu - 1, by
        have hlen : (f :: rest).length = rest.length + 1 := rfl
        omega⟩
    cases rest with
    | nil =>
      simp only [elemsLit, quoteLit, List.cons_append, List.append_assoc,
        List.singleton_append, List.nil_append]
      rw [parseElems_succ,
        parseValue_str fu2 f.toList (']' :: ['\x7d']) hplain]
      rfl
    | cons g t =>
      simp only [elemsLit, quoteLit, List.cons_append, List.append_assoc,
        List.singleton_append, List.nil_append]
      have hrec := ih fu2 (by simp) (fun f' hf' => hg f' (by simp [hf']))
        (by
          have e1 : (f :: g :: t).length = (g :: t).length + 1 := rfl
          omega)
      have step :
          (match parseValue (fu2 + 1)
              ('"' :: (f.toList ++ '"' ::
                (',' :: (elemsLit (g :: t) ++ [']', '\x7d'])))) with
            | none => none
            | some (v, r) =>
              match skipJsonWs r with
              | ',' :: r2 =>
                match parseElems (fu2 + 1) r2 with
                | none => none
                | some (vs, r3) => some (v :: vs, r3)
              | ']' :: r2 => some ([v], r2)
              | _ => none) =
          (match parseElems (fu2 + 1)
              (elemsLit (g :: t) ++ [']', '\x7d']) with
            | none => none
            | some (vs, r3) => some (Json.str f :: vs, r3)) := by
        rw [parseValue_str fu2 f.toList
          (',' :: (elemsLit (g :: t) ++ [']', '\x7d'])) hplain]
        rfl
      rw [parseElems_succ, step, hrec]
      rfl

theorem elemsLit_cons_shape (facts : List String) (hne : facts ≠ []) :
    ∃ tl, elemsLit facts = '"' :: tl := by
  cases facts with
  | nil => exact absurd rfl hne
  | cons f rest => cases rest <;> exact ⟨_, rfl⟩

theorem parseValue_array (facts : List String) (fu : Nat)
    (hne : facts ≠ []) (hg : ∀ f ∈ facts, goodFact f = true)
    (hfu : 2 * facts.length + 2 ≤ fu + 1) :
    parseValue (fu + 1) (' ' :: '[' :: (elemsLit facts ++ [']', '\x7d'])) =
      some (.arr (facts.map Json.str), ['\x7d']) := by
  obtain ⟨fu2, rfl⟩ : ∃ k, fu = k + 1 := ⟨fu - 1, by omega⟩
  obtain ⟨tl, htl⟩ := elemsLit_cons_shape facts hne
  have step : parseValue (fu2 + 1 + 1)
      (' ' :: '[' :: (elemsLit facts ++ [']', '\x7d'])) =
      (parseElems (fu2 + 1) (elemsLit facts ++ [']', '\x7d'])).map
        (fun m => (.arr m.1, m.2)) := by
    rw [htl]
    rfl
  rw [step, parseElems_facts facts fu2 hne hg (by omega)]
  rfl

theorem parseMembers_marker (facts : List String) (fu : Nat)
    (hne : facts ≠ []) (hg : ∀ f ∈ facts, goodFact f = true)
    (hfu : 2 * facts.length + 3 ≤ fu + 1) :
    parseMembers (fu + 1)
      ('"' :: ("newFacts".toList ++ '"' ::
        (':' :: ' ' :: '[' :: (elemsLit facts ++ [']', '\x7d'])))) =
      some ([("newFacts", .arr (facts.map Json.str))], []) := by
  obtain ⟨fu2, rfl⟩ : ∃ k, fu = k + 1 := ⟨fu - 1, by omega⟩
  have step : parseMembers (fu2 + 1 + 1)
      ('"' :: ("newFacts".toList ++ '"' ::
        (':' :: ' ' :: '[' :: (elemsLit facts ++ [']', '\x7d'])))) =
      (match parseValue (fu2 + 1)
          (' ' :: '[' :: (elemsLit facts ++ [']', '\x7d'])) with
        | none => none
        | some (v, r3) =>
          match skipJsonWs r3 with
          | ',' :: r4 =>
            match parseMembers (fu2 + 1) r4 with
            | none => none
            | some (ms, r5) => some (("newFacts", v) :: ms, r5)
          | '\x7d' :: r4 => some ([("newFacts", v)], r4)
          | _ => none) := rfl
  rw [step, parseValue_array facts fu2 hne hg (by omega)]
  rfl

theorem factsOpen_length : factsOpen.length = 12 := rfl

theorem elemsLit_length (facts : List String) (hne : facts ≠ []) :
    2 * facts.length ≤ (elemsLit facts).length := by
  induction facts with
  | nil => exact absurd rfl hne
  | cons f rest ih =>
    cases rest with
    | nil => simp [elemsLit, quoteLit]
    | cons g t =>
      have := ih (by simp)
      simp only [elemsLit, quoteLit] at this ⊢
      simp only [List.length_append, List.length_cons] at this ⊢
      omega

theorem mkMarker_length (facts : List String) :
    (mkMarker facts).length = 16 + (elemsLit facts).length := by
  simp [mkMarker, factsOpen_length]
  omega

theorem parseValue_marker (facts : List String) (fu : Nat)
    (hne : facts ≠ []) (hg : ∀ f ∈ facts, goodFact f = true)
    (hfu : 2 * facts.length + 4 ≤ fu + 1) :
    parseValue (fu + 1) (mkMarker facts) =
      some (.obj [("newFacts", .arr (facts.map Json.str))], []) := by
  obtain ⟨fu2, rfl⟩ : ∃ k, fu = k + 1 := ⟨fu - 1, by omega⟩
  have step : parseValue (fu2 + 1 + 1) (mkMarker facts) =
      (parseMembers (fu2 + 1)
        ('"' :: ("newFacts".toList ++ '"' ::
          (':' :: ' ' :: '[' :: (elemsLit facts ++ [']', '\x7d']))))).map
        (fun m => (.obj m.1, m.2)) := rfl
  rw [step, parseMembers_marker facts fu2 hne hg (by omega)]
  rfl

theorem jsonParse_mkMarker (facts : List String) (hne : facts ≠ [])
    (hg : ∀ f ∈ facts, goodFact f = true) :
    jsonParse (mkMarker facts) =
      some (.obj [("newFacts", .arr (facts.map Json.str))]) := by
  have hL : 2 * facts.length + 4 ≤ (2 * (mkMarker facts).length + 1) + 1 := by
    have h1 := elemsLit_length facts hne
    have h2 := mkMarker_length facts
    omega
  have he : 2 * (mkMarker facts).length + 2 =
      (2 * (mkMarker facts).length + 1) + 1 := rfl
  rw [jsonParse, he, parseValue_marker facts _ hne hg hL]
  rfl

/-! ### Boundary facts: no occurrence of a marker opener can start inside a
clean prefix -/

theorem fence_drop_marker (facts : List String) :
    ∀ k, 0 < k → k < fenceOpen.length →
      ¬ fenceOpen.drop k <+: mkMarker facts := by
  have hd : ∀ k, k < 7 → 0 < k →
      (fenceOpen.drop k ≠ [] ∧ (fenceOpen.drop k).head? ≠ some '\x7b') := by
    decide
  intro k hk0 hk hp
  rw [show fenceOpen.length = 7 from rfl] at hk
  obtain ⟨hne2, hh⟩ := hd k hk hk0
  rw [mkMarker_eq] at hp
  exact head?_ne_not_prefix hne2 hh hp

theorem facts_drop_marker (facts : List String) :
    ∀ k, 0 < k → k < factsOpen.length →
      ¬ factsOpen.drop k <+: mkMarker facts := by
  have hd : ∀ k, k < 12 → 0 < k →
      (factsOpen.drop k ≠ [] ∧ (factsOpen.drop k).head? ≠ some '\x7b') := by
    decide
  intro k hk0 hk hp
  rw [show factsOpen.length = 12 from rfl] at hk
  obtain ⟨hne2, hh⟩ := hd k hk hk0
  rw [mkMarker_eq] at hp
  exact head?_ne_not_prefix hne2 hh hp

theorem fence_drop_fenced (facts : List String) :
    ∀ k, 0 < k → k < fenceOpen.length →
      ¬ fenceOpen.drop k <+: mkFenced facts := by
  have hd : ∀ k, k < 7 → 0 < k →
      ((fenceOpen.drop k).length ≤ 8 ∧
        ¬ fenceOpen.drop k <+: "```json\n".toList) := by decide
  intro k hk0 hk hp
  rw [show fenceOpen.length = 7 from rfl] at hk
  obtain ⟨hlen, hnp⟩ := hd k hk hk0
  refine hnp (List.prefix_of_prefix_length_le hp ?_ ?_)
  · exact (List.prefix_append "```json\n".toList
      (mkMarker facts ++ "\n```".toList) : _ <+: mkFenced facts)
  · rw [show ("```json\n".toList).length = 8 from rfl]
    exact hlen

theorem facts_drop_fenced (facts : List String) :
    ∀ k, 0 < k → k < factsOpen.length →
      ¬ factsOpen.drop k <+: mkFenced facts := by
  have hd : ∀ k, k < 12 → 0 < k →
      (factsOpen.drop k ≠ [] ∧ (factsOpen.drop k).head? ≠ some '`') := by
    decide
  intro k hk0 hk hp
  rw [show factsOpen.length = 12 from rfl] at hk
  obtain ⟨hne2, hh⟩ := hd k hk hk0
  rw [mkFenced_eq] at hp
  exact head?_ne_not_prefix hne2 hh hp

theorem replaceFirst_self (pat : List Char) : replaceFirst pat pat = [] := by
  have := replaceFirst_of_prefix pat []
  rwa [List.append_nil] at this

theorem mkMarker_not_isEmpty (facts : List String) :
    (mkMarker facts).isEmpty = false := by
  rw [mkMarker_eq]; rfl

theorem mkFenced_ne_nil (facts : List String) : mkFenced facts ≠ [] := by
  rw [mkFenced_eq]; simp

theorem objLookup_singleton (k : String) (v : Json) :
    objLookup [(k, v)] k = some v := by
  simp [objLookup]

/-- C7 (amended): the extraction is leftmost-match based, so it behaves as the
spec describes only when no earlier occurrence of a marker opener
(```` ```json ```` or `\x7b"newFacts":`) appears before the trailing marker.
Under that condition, a reply ending in a canonical well-formed marker — raw
or fenced — yields `newFacts` equal to the marker's array and the reply with
the matched marker text removed and whitespace-trimmed; and whenever the raw
alternative matched but its text fails to parse as JSON, the reply is returned
unchanged with no facts. -/
theorem extractNewFacts_marker_extraction :
    (∀ (p : List Char) (facts : List String),
        ¬ fenceOpen <:+: p → ¬ factsOpen <:+: p → facts ≠ [] →
        (∀ f ∈ facts, goodFact f = true) →
        extractNewFacts (String.mk (p ++ mkMarker facts)) =
          (String.mk (trimList p), facts.map Json.str))
    ∧ (∀ (p : List Char) (facts : List String),
        ¬ fenceOpen <:+: p → ¬ factsOpen <:+: p → facts ≠ [] →
        (∀ f ∈ facts, goodFact f = true) →
        extractNewFacts (String.mk (p ++ mkFenced facts)) =
          (String.mk (trimList p), facts.map Json.str))
    ∧ (∀ (s : String) (m0 : List Char),
        jsMatch s.toList = some (m0, none) → jsonParse m0 = none →
        extractNewFacts s = (s, [])) := by
  refine ⟨?_, ?_, ?_⟩
  · intro p facts h1A h1B hne hg
    have hAq : ∀ q, q <:+ p → q ≠ [] →
        matchA (q ++ mkMarker facts) = none :=
      fun q hq hqne => matchA_none_of_not_prefix
        (not_prefix_at_suffix fenceOpen p (mkMarker facts) h1A
          (fence_drop_marker facts) q hq hqne)
    have hBq : ∀ q, q <:+ p → q ≠ [] →
        matchB (q ++ mkMarker facts) = false :=
      fun q hq hqne => matchB_false_of_not_prefix
        (not_prefix_at_suffix factsOpen p (mkMarker facts) h1B
          (facts_drop_marker facts) q hq hqne)
    have hjs : jsMatch (p ++ mkMarker facts) =
        some (mkMarker facts, none) := by
      rw [jsMatch_append p _ hAq hBq]
      exact jsMatch_here_B _ (mkMarker_ne_nil facts)
        (matchA_marker_none facts) (matchB_marker facts)
    have hfo : factsOpen <+: mkMarker facts :=
      ⟨' ' :: '[' :: (elemsLit facts ++ [']', '\x7d']), rfl⟩
    have hrep : replaceFirst (mkMarker facts) (p ++ mkMarker facts) = p := by
      rw [replaceFirst_append _ p _ (fun q hq hqne hpre =>
        (not_prefix_at_suffix factsOpen p (mkMarker facts) h1B
          (facts_drop_marker facts) q hq hqne) (hfo.trans hpre)),
        replaceFirst_self, List.append_nil]
    have hl : (String.mk (p ++ mkMarker facts)).toList =
        p ++ mkMarker facts := rfl
    simp only [extractNewFacts, hl, hjs, jsonParse_mkMarker facts hne hg,
      objLookup_singleton, hrep]
  · intro p facts h1A h1B hne hg
    have hAq : ∀ q, q <:+ p → q ≠ [] →
        matchA (q ++ mkFenced facts) = none :=
      fun q hq hqne => matchA_none_of_not_prefix
        (not_prefix_at_suffix fenceOpen p (mkFenced facts) h1A
          (fence_drop_fenced facts) q hq hqne)
    have hBq : ∀ q, q <:+ p → q ≠ [] →
        matchB (q ++ mkFenced facts) = false :=
      fun q hq hqne => matchB_false_of_not_prefix
        (not_prefix_at_suffix factsOpen p (mkFenced facts) h1B
          (facts_drop_fenced facts) q hq hqne)
    have hjs : jsMatch (p ++ mkFenced facts) =
        some (mkFenced facts, some (mkMarker facts)) := by
      rw [jsMatch_append p _ hAq hBq]
      exact jsMatch_here_A _ _ (mkFenced_ne_nil facts) (matchA_fenced facts hg)
    have hfo : fenceOpen <+: mkFenced facts :=
      ⟨'\n' :: (mkMarker facts ++ "\n```".toList), rfl⟩
    have hrep : replaceFirst (mkFenced facts) (p ++ mkFenced facts) = p := by
      rw [replaceFirst_append _ p _ (fun q hq hqne hpre =>
        (not_prefix_at_suffix fenceOpen p (mkFenced facts) h1A
          (fence_drop_fenced facts) q hq hqne) (hfo.trans hpre)),
        replaceFirst_self, List.append_nil]
    have hl : (String.mk (p ++ mkFenced facts)).toList =
        p ++ mkFenced facts := rfl
    simp only [extractNewFacts, hl, hjs, mkMarker_not_isEmpty,
      Bool.false_eq_true, if_false, jsonParse_mkMarker facts hne hg,
      objLookup_singleton, hrep]
  · intro s m0 hm hp
    simp only [extractNewFacts, hm, hp]


/-- C7 counterexample to the original claim: a reply ending in a well-formed
marker is not always extracted. First, when an earlier occurrence of the raw
opener appears in the reply, the leftmost regex match spans from that earlier
opener, its text fails to parse as JSON, and the proxy returns the full reply
with no facts. Second, even in the clean case the returned reply is the
trimmed remainder, not the original text with only the marker removed: a
trailing newline before the marker is also dropped. -/
theorem extractNewFacts_counterexample :
    (extractNewFacts (String.mk
        ("Hi \x7b\"newFacts\": [\"x\"]\x7d ok ".toList ++ mkMarker ["x"])) =
      (String.mk ("Hi \x7b\"newFacts\": [\"x\"]\x7d ok ".toList ++ mkMarker ["x"]),
        [])
      ∧ ([] : List Json) ≠ [Json.str "x"])
    ∧ ((extractNewFacts (String.mk ("hi\n".toList ++ mkMarker ["x"])) =
        ("hi", [Json.str "x"]))
      ∧ ("hi" : String) ≠ String.mk ("hi\n".toList)) := by
  exact ⟨⟨by rfl, by simp⟩, ⟨by rfl, by decide⟩⟩

theorem extractNewFacts_marker_extraction_witness :
    (¬ fenceOpen <:+: "ok\n".toList) ∧ (¬ factsOpen <:+: "ok\n".toList) ∧
    extractNewFacts (String.mk ("ok\n".toList ++ mkMarker ["likes Max"])) =
      (String.mk (trimList "ok\n".toList), (["likes Max"].map Json.str)) :=
  ⟨by decide, by decide,
    extractNewFacts_marker_extraction.1 "ok\n".toList ["likes Max"]
      (by decide) (by decide) (by decide) (by decide)⟩

end F1Hub
